import Mathlib

/-!
Verification of the DeSide synthetic bulk gene-expression-profile generation
engine (`deside/simulation/generate_data.py`).

The Python source is shallowly embedded over `ℚ`:
* random draws (`np.random.rand`, `np.random.randint`, `np.random.choice`,
  `np.random.shuffle`) become explicit parameters (streams of rationals or
  naturals, and permutation-producing functions);
* `pandas`/`numpy` row operations become `List ℚ` operations;
* `DataFrame.round(d)` becomes `roundDec d` (round half to even, numpy's
  rounding mode), applied entry-wise;
* fallible code paths become `Option`/`Except`.
-/

namespace DeSide

/-! ## Rounding (numpy / pandas `.round(d)`: round half to even) -/

/-- Round a rational to the nearest integer, ties to the even integer
(numpy's rounding mode, used by `DataFrame.round`).  The floor is written
`s.num / s.den` so that the definition evaluates inside the kernel; it equals
`⌊s⌋` by `Rat.floor_def`. -/
def roundHalfEven (s : ℚ) : ℤ :=
  let f : ℤ := s.num / s.den
  let r : ℚ := s - f
  if r < 1/2 then f
  else if 1/2 < r then f + 1
  else if 2 ∣ f then f else f + 1

theorem roundHalfEven_floor_def (s : ℚ) :
    roundHalfEven s =
      (let f : ℤ := ⌊s⌋
       let r : ℚ := s - f
       if r < 1/2 then f
       else if 1/2 < r then f + 1
       else if 2 ∣ f then f else f + 1) := by
  unfold roundHalfEven
  rw [← Rat.floor_def]

/-- `DataFrame.round(d)` on a single entry: round at `d` decimal places,
half to even. -/
def roundDec (d : ℕ) (x : ℚ) : ℚ :=
  (roundHalfEven (x * 10 ^ d) : ℚ) / 10 ^ d

theorem roundHalfEven_sub_abs_le (s : ℚ) : |(roundHalfEven s : ℚ) - s| ≤ 1/2 := by
  rw [roundHalfEven_floor_def]
  have hf : (⌊s⌋ : ℚ) ≤ s := Int.floor_le s
  have hf' : s < (⌊s⌋ : ℚ) + 1 := Int.lt_floor_add_one s
  by_cases h1 : s - (⌊s⌋ : ℚ) < 1/2
  · simp only [h1, if_true]
    rw [abs_sub_comm, abs_of_nonneg (by linarith)]
    linarith
  · simp only [h1, if_false]
    by_cases h2 : (1:ℚ)/2 < s - (⌊s⌋ : ℚ)
    · simp only [h2, if_true]
      push_cast
      rw [abs_of_nonneg (by linarith)]
      linarith
    · simp only [h2, if_false]
      have heq : s - (⌊s⌋ : ℚ) = 1/2 := le_antisymm (not_lt.mp h2) (not_lt.mp h1)
      by_cases h3 : (2:ℤ) ∣ ⌊s⌋
      · simp only [h3, if_true]
        rw [abs_sub_comm, abs_of_nonneg (by linarith)]
        linarith
      · simp only [h3, if_false]
        push_cast
        rw [abs_of_nonneg (by linarith)]
        linarith

theorem roundDec_sub_abs_le (d : ℕ) (x : ℚ) :
    |roundDec d x - x| ≤ 1 / (2 * 10 ^ d) := by
  unfold roundDec
  have hpow : (0:ℚ) < 10 ^ d := by positivity
  have h := roundHalfEven_sub_abs_le (x * 10 ^ d)
  have hrw : (roundHalfEven (x * 10 ^ d) : ℚ) / 10 ^ d - x
      = ((roundHalfEven (x * 10 ^ d) : ℚ) - x * 10 ^ d) / 10 ^ d := by
    field_simp
    ring
  rw [hrw, abs_div, abs_of_pos hpow, div_le_div_iff₀ hpow (by positivity)]
  calc |(roundHalfEven (x * 10 ^ d) : ℚ) - x * 10 ^ d| * (2 * 10 ^ d)
      ≤ (1/2) * (2 * 10 ^ d) := by
        apply mul_le_mul_of_nonneg_right h (by positivity)
    _ = 1 * 10 ^ d := by ring

theorem roundHalfEven_nonneg {s : ℚ} (h : 0 ≤ s) : 0 ≤ roundHalfEven s := by
  rw [roundHalfEven_floor_def]
  dsimp only
  have hfl : (0:ℤ) ≤ ⌊s⌋ := Int.floor_nonneg.mpr h
  split_ifs <;> omega

theorem roundDec_nonneg {d : ℕ} {x : ℚ} (h : 0 ≤ x) : 0 ≤ roundDec d x := by
  unfold roundDec
  have : (0:ℚ) ≤ (roundHalfEven (x * 10 ^ d) : ℚ) := by
    exact_mod_cast roundHalfEven_nonneg (by positivity)
  positivity

/-- Rounding is the identity on rationals that are already expressible with
`d` decimal places (used for `max_value = 10000` with `d = 4`). -/
theorem roundDec_eq_self_of_den {d : ℕ} {x : ℚ} (n : ℤ) (h : x * 10 ^ d = n) :
    roundDec d x = x := by
  unfold roundDec
  rw [roundHalfEven_floor_def]
  dsimp only
  have hfl : ⌊x * 10 ^ d⌋ = n := by rw [h]; exact Int.floor_intCast n
  rw [hfl, h]
  norm_num
  rw [eq_comm, eq_div_iff (by positivity : (10:ℚ) ^ d ≠ 0)]
  exact h

/-- Entry-wise rounding keeps a list's sum within `length · half-ulp` of
the original sum. -/
theorem sum_map_roundDec_near (d : ℕ) (l : List ℚ) :
    |(l.map (roundDec d)).sum - l.sum| ≤ l.length * (1 / (2 * 10 ^ d)) := by
  induction l with
  | nil => simp
  | cons a l ih =>
    simp only [List.map_cons, List.sum_cons, List.length_cons]
    have h1 := roundDec_sub_abs_le d a
    have key : roundDec d a + (l.map (roundDec d)).sum - (a + l.sum)
        = (roundDec d a - a) + ((l.map (roundDec d)).sum - l.sum) := by ring
    rw [key]
    calc |(roundDec d a - a) + ((l.map (roundDec d)).sum - l.sum)|
        ≤ |roundDec d a - a| + |(l.map (roundDec d)).sum - l.sum| := abs_add _ _
      _ ≤ 1 / (2 * 10 ^ d) + l.length * (1 / (2 * 10 ^ d)) := add_le_add h1 ih
      _ = ((l.length + 1 : ℕ) : ℚ) * (1 / (2 * 10 ^ d)) := by push_cast; ring

/-! ## List helpers -/

theorem sum_map_div (l : List ℚ) (s : ℚ) :
    (l.map (fun x => x / s)).sum = l.sum / s := by
  induction l with
  | nil => simp
  | cons a t ih => simp only [List.map_cons, List.sum_cons, ih]; ring

theorem sum_map_div_mul (l : List ℚ) (s c : ℚ) :
    (l.map (fun x => x / s * c)).sum = l.sum / s * c := by
  induction l with
  | nil => simp
  | cons a t ih => simp only [List.map_cons, List.sum_cons, ih]; ring

theorem sum_map_natCast_div (l : List ℕ) (m : ℚ) :
    (l.map (fun f : ℕ => (f : ℚ) / m)).sum = (l.sum : ℚ) / m := by
  induction l with
  | nil => simp
  | cons a t ih => simp only [List.map_cons, List.sum_cons, ih]; push_cast; ring

/-- The `arr / arr.sum()` idiom used by all samplers: scale a row so that it
sums to 1. -/
def normalizeRow (l : List ℚ) : List ℚ := l.map (fun x => x / l.sum)

theorem normalizeRow_sum {l : List ℚ} (h : l.sum ≠ 0) : (normalizeRow l).sum = 1 := by
  unfold normalizeRow
  rw [sum_map_div, div_self h]

theorem normalizeRow_nonneg {l : List ℚ} (hpos : 0 ≤ l.sum) (hall : ∀ x ∈ l, 0 ≤ x) :
    ∀ x ∈ normalizeRow l, 0 ≤ x := by
  intro x hx
  unfold normalizeRow at hx
  obtain ⟨y, hy, rfl⟩ := List.mem_map.mp hx
  exact div_nonneg (hall y hy) hpos

/-! ## FractionSampler: `segment_generation_fraction` (lines 22-92)

Randomness model: `np.random.randint(m)` on draw `j` is `ints j % m`
(an arbitrary value in `[0, m)`); `np.random.shuffle` is an arbitrary
permutation-producing function `σ` (theorems assume `σ l` is a permutation
of `l`). -/

/-- The fragment loop of `segment_generation_fraction` (lines 52-62): for each
of the first `k - 1` cell types, if more than one unit of budget remains draw
`np.random.randint(current_max_value)` and subtract it; with exactly one unit
left emit it; with none left emit `0`.  The remaining budget is appended after
the loop (line 62).  `steps` is the number of loop iterations (`k - 1`). -/
def segmentFrags (ints : ℕ → ℕ) : ℕ → ℕ → ℕ → List ℕ
  | _, 0, current => [current]
  | j, steps+1, current =>
    if 1 < current then
      let f := ints j % current
      f :: segmentFrags ints (j+1) steps (current - f)
    else if current = 1 then
      1 :: segmentFrags ints (j+1) steps 0
    else
      0 :: segmentFrags ints (j+1) steps 0

/-- The fragments always add up to the full budget (the `assert` at
line 63 of the source). -/
theorem segmentFrags_sum (ints : ℕ → ℕ) (j steps current : ℕ) :
    (segmentFrags ints j steps current).sum = current := by
  induction steps generalizing j current with
  | zero => simp [segmentFrags]
  | succ n ih =>
    unfold segmentFrags
    split_ifs with h1 h2
    · have hlt : ints j % current < current := Nat.mod_lt _ (by omega)
      simp only [List.sum_cons, ih]
      omega
    · simp only [List.sum_cons, ih]; omega
    · simp only [List.sum_cons, ih]; omega

theorem segmentFrags_length (ints : ℕ → ℕ) (j steps current : ℕ) :
    (segmentFrags ints j steps current).length = steps + 1 := by
  induction steps generalizing j current with
  | zero => simp [segmentFrags]
  | succ n ih =>
    unfold segmentFrags
    split_ifs <;> simp [ih]

/-- One draw of `segment_generation_fraction` (lines 49-77): build the integer
fragments, shuffle them (`σ` is the permutation applied by
`np.random.shuffle`, line 64) and normalize by `max_value` (line 76). -/
def segmentSample (ints : ℕ → ℕ) (σ : List ℕ → List ℕ) (k maxValue : ℕ) : List ℚ :=
  (σ (segmentFrags ints 0 (k - 1) maxValue)).map (fun f : ℕ => (f : ℚ) / maxValue)

/-- The prior-range check of `segment_generation_fraction` (lines 78-83): the
sample is kept unless some cell type's fraction falls outside its
`[low, high]` prior range; `none` means no `cell_prop_prior` was supplied. -/
def segmentSampleValid (cellTypes : List String) (prior : Option (String → ℚ × ℚ))
    (fracs : List ℚ) : Bool :=
  match prior with
  | none => true
  | some p =>
    (cellTypes.zip fracs).all (fun cf => decide ((p cf.1).1 ≤ cf.2 ∧ cf.2 ≤ (p cf.1).2))

/-- The collection loop of `segment_generation_fraction` (line 48): keep
drawing candidate fraction vectors until `nSamples` valid ones are collected.
Attempt `i` uses the random draws `ints i` and the shuffle `σs i`.  `fuel`
bounds the number of attempts and `none` reports exhaustion (the Python
`while` would simply keep drawing). -/
def segmentCollect (ints : ℕ → ℕ → ℕ) (σs : ℕ → List ℕ → List ℕ) (k maxValue : ℕ)
    (cellTypes : List String) (prior : Option (String → ℚ × ℚ)) (nSamples : ℕ) :
    ℕ → ℕ → List (List ℚ) → Option (List (List ℚ))
  | 0, _, acc => if acc.length < nSamples then none else some acc
  | fuel+1, i, acc =>
    if acc.length < nSamples then
      if segmentSampleValid cellTypes prior (segmentSample (ints i) (σs i) k maxValue) then
        segmentCollect ints σs k maxValue cellTypes prior nSamples fuel (i+1)
          (acc ++ [segmentSample (ints i) (σs i) k maxValue])
      else
        segmentCollect ints σs k maxValue cellTypes prior nSamples fuel (i+1) acc
    else some acc

/-- `segment_generation_fraction` (lines 22-92): collect `nSamples` valid
fraction vectors (`k = len(cell_types)`), then round the table to 4 decimals
(line 92; the `.loc[:, cell_types]` column reorder of line 91 is the
identity because the dict was built in `cell_types` order). -/
def segment_generation_fraction (ints : ℕ → ℕ → ℕ) (σs : ℕ → List ℕ → List ℕ)
    (k maxValue : ℕ) (cellTypes : List String) (prior : Option (String → ℚ × ℚ))
    (nSamples fuel : ℕ) : Option (List (List ℚ)) :=
  (segmentCollect ints σs k maxValue cellTypes prior nSamples fuel 0 []).map
    (fun rows => rows.map (fun r => r.map (roundDec 4)))

/-! ## FractionSampler: `seg_random_generation_fraction` (lines 95-129) -/

/-- One draw of `seg_random_generation_fraction` (lines 114-123): a dominant
fraction `first = np.random.rand()`, the other draws scaled to sum to
`1 - first`, the whole vector normalized once more and then shuffled. -/
def segRandomSample (first : ℚ) (others : List ℚ) (σ : List ℚ → List ℚ) : List ℚ :=
  let othersScaled := others.map (fun x => x / others.sum * (1 - first))
  σ (normalizeRow (first :: othersScaled))

/-- `seg_random_generation_fraction` (lines 95-129): the loop appends exactly
one sample per iteration, so exactly `nSamples` rows are produced; the table
is rounded to 4 decimals (line 129). -/
def seg_random_generation_fraction (firsts : ℕ → ℚ) (others : ℕ → List ℚ)
    (σs : ℕ → List ℚ → List ℚ) (nSamples : ℕ) : List (List ℚ) :=
  (List.range nSamples).map (fun i =>
    (segRandomSample (firsts i) (others i) (σs i)).map (roundDec 4))

/-! ## FractionSampler: `fragment_generation_fraction` (lines 132-180) -/

/-- One raw (pre-normalization) proportion of the `fragment` strategy (lines
156-169): a bin lower edge `binIdx / bins` (`np.linspace(0, 1 - 1/bins, bins)`
at a sampled index) plus jitter `noise / 10` with `noise = np.random.rand()`
(the code always jitters by `0.1 * rand`, line 167). -/
def fragmentRawEntry (bins binIdx : ℕ) (noise : ℚ) : ℚ :=
  ((binIdx % bins : ℕ) : ℚ) / bins + noise / 10

/-- One raw row over `k` cell types (the `ct2prop` columns of lines 162-169
assembled in `cell_types` order). -/
def fragmentRawRow (bins : ℕ) (binIdx : ℕ → ℕ) (noise : ℕ → ℚ) (k : ℕ) : List ℚ :=
  (List.range k).map (fun t => fragmentRawEntry bins (binIdx t) (noise t))

/-- The first two steps of the row pipeline of `fragment_generation_fraction`
(lines 175-176): scale the row to sum 1, then zero out entries below
`minimal_prop`. -/
def fragmentZeroSmall (minimalProp : ℚ) (raw : List ℚ) : List ℚ :=
  (normalizeRow raw).map (fun x => if x < minimalProp then 0 else x)

/-- The full row pipeline of `fragment_generation_fraction` (lines 174-177):
scale to sum 1, zero out small entries, scale again. -/
def fragmentNormalizeRow (minimalProp : ℚ) (raw : List ℚ) : List ℚ :=
  normalizeRow (fragmentZeroSmall minimalProp raw)

/-- `fragment_generation_fraction` (lines 132-180): `nSamples` rows over `k`
cell types, normalized and rounded to 4 decimals (line 180). -/
def fragment_generation_fraction (bins : ℕ) (binIdx : ℕ → ℕ → ℕ) (noise : ℕ → ℕ → ℚ)
    (minimalProp : ℚ) (k nSamples : ℕ) : List (List ℚ) :=
  (List.range nSamples).map (fun i =>
    (fragmentNormalizeRow minimalProp (fragmentRawRow bins (binIdx i) (noise i) k)).map
      (roundDec 4))

/-! ## FractionSampler: `random_generation_fraction` (lines 183-227) -/

/-- `_create_fractions` (lines 183-200): uniform draws (`np.random.rand`)
normalized to sum 1; when a `fixed_range` covering at least `n_cell_types`
types is supplied, the raw values are instead `randint(low, high) / 100` for
each entry of the range (`intDraws` lists those integer draws). -/
def createFracsRaw (nCellTypes : ℕ) (udraws : List ℚ)
    (fixedRange : Option (List (ℤ × ℤ))) (intDraws : List ℤ) : List ℚ :=
  match fixedRange with
  | none => udraws
  | some fr =>
    if fr.length < nCellTypes then udraws
    else intDraws.map (fun v => (v : ℚ) / 100)

def _create_fractions (nCellTypes : ℕ) (udraws : List ℚ)
    (fixedRange : Option (List (ℤ × ℤ))) (intDraws : List ℤ) : List ℚ :=
  normalizeRow (createFracsRaw nCellTypes udraws fixedRange intDraws)

/-- `random_generation_fraction` (lines 203-227): `nSamples` independent rows,
each a normalized `_create_fractions` draw, rounded to **2** decimals
(line 227). -/
def random_generation_fraction (nCellTypes : ℕ) (udraws : ℕ → List ℚ)
    (fixedRange : Option (List (ℤ × ℤ))) (intDraws : ℕ → List ℤ) (nSamples : ℕ) :
    List (List ℚ) :=
  (List.range nSamples).map (fun i =>
    (_create_fractions nCellTypes (udraws i) fixedRange (intDraws i)).map (roundDec 2))

/-! ## Row invariants of the four samplers -/

/-- A row that sums to 1 exactly stays within `length · half-ulp` of sum 1
after entry-wise rounding, and stays non-negative. -/
theorem rounded_row_bounds {pre : List ℚ} (d : ℕ) (hsum : pre.sum = 1)
    (hpos : ∀ x ∈ pre, 0 ≤ x) :
    (∀ x ∈ pre.map (roundDec d), 0 ≤ x) ∧
      |(pre.map (roundDec d)).sum - 1| ≤ (pre.map (roundDec d)).length * (1 / (2 * 10 ^ d)) := by
  constructor
  · intro x hx
    obtain ⟨y, hy, rfl⟩ := List.mem_map.mp hx
    exact roundDec_nonneg (hpos y hy)
  · have h := sum_map_roundDec_near d pre
    rw [hsum] at h
    simpa [List.length_map] using h

theorem segmentSample_nonneg (ints : ℕ → ℕ) (σ : List ℕ → List ℕ) (k maxValue : ℕ) :
    ∀ x ∈ segmentSample ints σ k maxValue, 0 ≤ x := by
  intro x hx
  unfold segmentSample at hx
  obtain ⟨f, _, rfl⟩ := List.mem_map.mp hx
  positivity

theorem segmentSample_sum (ints : ℕ → ℕ) (σ : List ℕ → List ℕ) (k maxValue : ℕ)
    (hσ : ∀ l, (σ l).Perm l) (hmax : 1 ≤ maxValue) :
    (segmentSample ints σ k maxValue).sum = 1 := by
  unfold segmentSample
  rw [sum_map_natCast_div, (hσ _).sum_eq, segmentFrags_sum, div_self]
  have : maxValue ≠ 0 := by omega
  exact_mod_cast this

/-- Every entry of a segment sample is an integer number of budget units over
`maxValue` (used to show 4-decimal rounding is the identity at
`max_value = 10000`). -/
theorem segmentSample_units (ints : ℕ → ℕ) (σ : List ℕ → List ℕ) (k maxValue : ℕ) :
    ∀ x ∈ segmentSample ints σ k maxValue, ∃ f : ℕ, x = (f : ℚ) / maxValue := by
  intro x hx
  obtain ⟨f, _, rfl⟩ := List.mem_map.mp hx
  exact ⟨f, rfl⟩

theorem segRandomSample_frag_sum {first : ℚ} {others : List ℚ}
    (hS : others.sum ≠ 0) :
    (first :: others.map (fun x => x / others.sum * (1 - first))).sum = 1 := by
  simp only [List.sum_cons, sum_map_div_mul]
  field_simp

theorem segRandomSample_sum (first : ℚ) (others : List ℚ) (σ : List ℚ → List ℚ)
    (hσ : ∀ l, (σ l).Perm l) (hS : others.sum ≠ 0) :
    (segRandomSample first others σ).sum = 1 := by
  unfold segRandomSample
  rw [(hσ _).sum_eq]
  exact normalizeRow_sum (by rw [segRandomSample_frag_sum hS]; norm_num)

theorem segRandomSample_nonneg (first : ℚ) (others : List ℚ) (σ : List ℚ → List ℚ)
    (hσ : ∀ l, (σ l).Perm l) (h0 : 0 ≤ first) (h1 : first ≤ 1)
    (hS : 0 < others.sum) (hall : ∀ x ∈ others, 0 ≤ x) :
    ∀ x ∈ segRandomSample first others σ, 0 ≤ x := by
  intro x hx
  unfold segRandomSample at hx
  rw [(hσ _).mem_iff] at hx
  refine normalizeRow_nonneg ?_ ?_ x hx
  · rw [segRandomSample_frag_sum (ne_of_gt hS)]; norm_num
  · intro y hy
    rcases List.mem_cons.mp hy with rfl | hy'
    · exact h0
    · obtain ⟨z, hz, rfl⟩ := List.mem_map.mp hy'
      have := hall z hz
      have h1' : 0 ≤ 1 - first := by linarith
      positivity

theorem fragmentZeroSmall_nonneg (minimalProp : ℚ) (raw : List ℚ)
    (hS : 0 ≤ raw.sum) (hall : ∀ x ∈ raw, 0 ≤ x) :
    ∀ x ∈ fragmentZeroSmall minimalProp raw, 0 ≤ x := by
  intro x hx
  unfold fragmentZeroSmall at hx
  obtain ⟨y, hy, rfl⟩ := List.mem_map.mp hx
  split_ifs
  · exact le_refl 0
  · exact normalizeRow_nonneg hS hall y hy

theorem fragmentNormalizeRow_sum (minimalProp : ℚ) (raw : List ℚ)
    (h2 : (fragmentZeroSmall minimalProp raw).sum ≠ 0) :
    (fragmentNormalizeRow minimalProp raw).sum = 1 :=
  normalizeRow_sum h2

theorem fragmentNormalizeRow_nonneg (minimalProp : ℚ) (raw : List ℚ)
    (hS : 0 ≤ raw.sum) (hall : ∀ x ∈ raw, 0 ≤ x)
    (h2 : 0 ≤ (fragmentZeroSmall minimalProp raw).sum) :
    ∀ x ∈ fragmentNormalizeRow minimalProp raw, 0 ≤ x :=
  normalizeRow_nonneg h2 (fragmentZeroSmall_nonneg minimalProp raw hS hall)

theorem fragmentRawRow_nonneg (bins : ℕ) (binIdx : ℕ → ℕ) (noise : ℕ → ℚ) (k : ℕ)
    (hn : ∀ t, 0 ≤ noise t) :
    ∀ x ∈ fragmentRawRow bins binIdx noise k, 0 ≤ x := by
  intro x hx
  unfold fragmentRawRow fragmentRawEntry at hx
  obtain ⟨t, _, rfl⟩ := List.mem_map.mp hx
  have := hn t
  positivity

theorem create_fractions_sum (nCellTypes : ℕ) (udraws : List ℚ)
    (fixedRange : Option (List (ℤ × ℤ))) (intDraws : List ℤ)
    (h : (createFracsRaw nCellTypes udraws fixedRange intDraws).sum ≠ 0) :
    (_create_fractions nCellTypes udraws fixedRange intDraws).sum = 1 :=
  normalizeRow_sum h

theorem create_fractions_nonneg (nCellTypes : ℕ) (udraws : List ℚ)
    (fixedRange : Option (List (ℤ × ℤ))) (intDraws : List ℤ)
    (hS : 0 ≤ (createFracsRaw nCellTypes udraws fixedRange intDraws).sum)
    (hall : ∀ x ∈ createFracsRaw nCellTypes udraws fixedRange intDraws, 0 ≤ x) :
    ∀ x ∈ _create_fractions nCellTypes udraws fixedRange intDraws, 0 ≤ x :=
  normalizeRow_nonneg hS hall

/-! ## Invariants of the segment collection loop -/

theorem segmentCollect_length (ints : ℕ → ℕ → ℕ) (σs : ℕ → List ℕ → List ℕ)
    (k maxValue : ℕ) (cellTypes : List String) (prior : Option (String → ℚ × ℚ))
    (nSamples : ℕ) :
    ∀ fuel i acc rows, acc.length ≤ nSamples →
      segmentCollect ints σs k maxValue cellTypes prior nSamples fuel i acc = some rows →
      rows.length = nSamples := by
  intro fuel
  induction fuel with
  | zero =>
    intro i acc rows hle h
    unfold segmentCollect at h
    by_cases hlt : acc.length < nSamples
    · simp [hlt] at h
    · simp [hlt] at h
      subst h
      omega
  | succ n ih =>
    intro i acc rows hle h
    unfold segmentCollect at h
    split_ifs at h with hlt hvalid
    · exact ih (i+1) _ rows (by simp; omega) h
    · exact ih (i+1) _ rows hle h
    · cases h; omega

theorem segmentCollect_mem (ints : ℕ → ℕ → ℕ) (σs : ℕ → List ℕ → List ℕ)
    (k maxValue : ℕ) (cellTypes : List String) (prior : Option (String → ℚ × ℚ))
    (nSamples : ℕ) :
    ∀ fuel i acc rows,
      segmentCollect ints σs k maxValue cellTypes prior nSamples fuel i acc = some rows →
      ∀ r ∈ rows, r ∈ acc ∨ ∃ j, r = segmentSample (ints j) (σs j) k maxValue := by
  intro fuel
  induction fuel with
  | zero =>
    intro i acc rows h r hr
    unfold segmentCollect at h
    by_cases hlt : acc.length < nSamples
    · simp [hlt] at h
    · simp [hlt] at h
      subst h
      exact Or.inl hr
  | succ n ih =>
    intro i acc rows h r hr
    unfold segmentCollect at h
    split_ifs at h with hlt hvalid
    · rcases ih (i+1) _ rows h r hr with hmem | hnew
      · rcases List.mem_append.mp hmem with hl | hr'
        · exact Or.inl hl
        · exact Or.inr ⟨i, by simpa using hr'⟩
      · exact Or.inr hnew
    · exact ih (i+1) _ rows h r hr
    · cases h; exact Or.inl hr

theorem segmentCollect_valid (ints : ℕ → ℕ → ℕ) (σs : ℕ → List ℕ → List ℕ)
    (k maxValue : ℕ) (cellTypes : List String) (prior : Option (String → ℚ × ℚ))
    (nSamples : ℕ) :
    ∀ fuel i acc rows,
      (∀ r ∈ acc, segmentSampleValid cellTypes prior r = true) →
      segmentCollect ints σs k maxValue cellTypes prior nSamples fuel i acc = some rows →
      ∀ r ∈ rows, segmentSampleValid cellTypes prior r = true := by
  intro fuel
  induction fuel with
  | zero =>
    intro i acc rows hacc h
    unfold segmentCollect at h
    by_cases hlt : acc.length < nSamples
    · simp [hlt] at h
    · simp [hlt] at h
      subst h
      exact hacc
  | succ n ih =>
    intro i acc rows hacc h
    unfold segmentCollect at h
    split_ifs at h with hlt hvalid
    · refine ih (i+1) _ rows ?_ h
      intro r hr
      rcases List.mem_append.mp hr with hl | hr'
      · exact hacc r hl
      · simp only [List.mem_singleton] at hr'
        subst hr'
        exact hvalid
    · exact ih (i+1) _ rows hacc h
    · cases h; exact hacc

theorem roundDec_zero (d : ℕ) : roundDec d 0 = 0 :=
  roundDec_eq_self_of_den 0 (by norm_num)

theorem roundDec_one (d : ℕ) : roundDec d 1 = 1 :=
  roundDec_eq_self_of_den ((10:ℤ) ^ d) (by push_cast; ring)

/-- At `max_value = 10000`, 4-decimal rounding is the identity on segment
samples: every fraction is an integer number of units over `10000`. -/
theorem segmentSample_map_roundDec4 (ints : ℕ → ℕ) (σ : List ℕ → List ℕ) (k : ℕ) :
    (segmentSample ints σ k 10000).map (roundDec 4) = segmentSample ints σ k 10000 := by
  have h : ∀ x ∈ segmentSample ints σ k 10000, roundDec 4 x = x := by
    intro x hx
    obtain ⟨f, rfl⟩ := segmentSample_units ints σ k 10000 x hx
    refine roundDec_eq_self_of_den (f : ℤ) ?_
    push_cast
    ring_nf
  calc (segmentSample ints σ k 10000).map (roundDec 4)
      = (segmentSample ints σ k 10000).map id := List.map_congr_left h
    _ = segmentSample ints σ k 10000 := List.map_id _

theorem row_sum_tol {r : List ℚ} (h : |r.sum - 1| ≤ r.length * (1/20000))
    (hlen : r.length ≤ 20) : |r.sum - 1| ≤ 1/1000 := by
  calc |r.sum - 1| ≤ r.length * (1/20000) := h
    _ ≤ 20 * (1/20000) := by
        apply mul_le_mul_of_nonneg_right _ (by norm_num)
        exact_mod_cast hlen
    _ = 1/1000 := by norm_num

theorem rounded_row_bounds' (d : ℕ) (c : ℚ) {pre : List ℚ} (hc : 1 / (2 * 10 ^ d) ≤ c)
    (hsum : pre.sum = 1) (hpos : ∀ x ∈ pre, 0 ≤ x) :
    (∀ x ∈ pre.map (roundDec d), 0 ≤ x) ∧
      |(pre.map (roundDec d)).sum - 1| ≤ (pre.map (roundDec d)).length * c := by
  obtain ⟨h1, h2⟩ := rounded_row_bounds d hsum hpos
  exact ⟨h1, le_trans h2 (mul_le_mul_of_nonneg_left hc (by positivity))⟩

/-! ## Claim C1 -/

/-- **C1, counterexample.**  The claim states that for every strategy each row
of the returned fraction table sums to 1 within `±0.001` after the final
rounding.  The `random` strategy rounds its table to **2** decimals
(`generated_frac_df.round(2)`, line 227 of `generate_data.py`): with three
cell types and uniform draws all equal to `1/2` (legal outputs of
`np.random.rand`), the single generated row is `[0.33, 0.33, 0.33]`, whose sum
`0.99` misses 1 by `0.01 > 0.001`. -/
theorem C1_random_round2_counterexample :
    random_generation_fraction 3 (fun _ => [1/2, 1/2, 1/2]) none (fun _ => []) 1
        = [[33/100, 33/100, 33/100]] ∧
      ¬ |([(33:ℚ)/100, 33/100, 33/100].sum) - 1| ≤ 1/1000 := by
  constructor
  · simp only [random_generation_fraction, _create_fractions, createFracsRaw, normalizeRow,
      List.range_succ, List.range_zero, List.map_cons, List.map_nil, List.nil_append,
      List.sum_cons, List.sum_nil, roundDec, roundHalfEven_floor_def]
    norm_num
  · simp only [List.sum_cons, List.sum_nil]
    rw [show ((33:ℚ)/100 + (33/100 + (33/100 + 0))) - 1 = -(1/100) by norm_num, abs_neg,
      abs_of_pos (by norm_num : (0:ℚ) < 1/100)]
    norm_num

/-- **C1, amended.**  For every strategy, every row of the returned table has
only non-negative values, and each row's **pre-rounding** sum is exactly 1, so
after the final rounding the row sum is within `±(k · half-ulp)` of 1 —
`k · 0.00005` for the 4-decimal strategies (segment, seg_random, fragment),
hence within the claimed `±0.001` whenever the row has at most 20 cell types,
but only `k · 0.005` for the `random` strategy, which rounds to 2 decimals.
Hypotheses state that the supplied randomness is in the ranges the `numpy`
generators produce (shuffles are permutations, `rand()` values lie in `[0,1)`,
intermediate row sums are non-zero, which holds except on a
measure-zero set of draws). -/
theorem C1_fraction_rows_amended :
    (∀ (ints : ℕ → ℕ → ℕ) (σs : ℕ → List ℕ → List ℕ) (k maxValue : ℕ)
        (cellTypes : List String) (prior : Option (String → ℚ × ℚ))
        (nSamples fuel : ℕ) (rows : List (List ℚ)),
        (∀ i (l : List ℕ), (σs i l).Perm l) → 1 ≤ maxValue →
        segment_generation_fraction ints σs k maxValue cellTypes prior nSamples fuel
          = some rows →
        ∀ r ∈ rows, (∀ x ∈ r, 0 ≤ x) ∧ |r.sum - 1| ≤ r.length * (1/20000) ∧
          (r.length ≤ 20 → |r.sum - 1| ≤ 1/1000)) ∧
    (∀ (firsts : ℕ → ℚ) (others : ℕ → List ℚ) (σs : ℕ → List ℚ → List ℚ) (nSamples : ℕ),
        (∀ i (l : List ℚ), (σs i l).Perm l) →
        (∀ i, 0 ≤ firsts i ∧ firsts i ≤ 1) →
        (∀ i, 0 < (others i).sum) → (∀ i, ∀ x ∈ others i, 0 ≤ x) →
        ∀ r ∈ seg_random_generation_fraction firsts others σs nSamples,
          (∀ x ∈ r, 0 ≤ x) ∧ |r.sum - 1| ≤ r.length * (1/20000) ∧
          (r.length ≤ 20 → |r.sum - 1| ≤ 1/1000)) ∧
    (∀ (bins : ℕ) (binIdx : ℕ → ℕ → ℕ) (noise : ℕ → ℕ → ℚ) (minimalProp : ℚ)
        (k nSamples : ℕ),
        (∀ i t, 0 ≤ noise i t) →
        (∀ i, 0 < (fragmentRawRow bins (binIdx i) (noise i) k).sum) →
        (∀ i, 0 < (fragmentZeroSmall minimalProp
          (fragmentRawRow bins (binIdx i) (noise i) k)).sum) →
        ∀ r ∈ fragment_generation_fraction bins binIdx noise minimalProp k nSamples,
          (∀ x ∈ r, 0 ≤ x) ∧ |r.sum - 1| ≤ r.length * (1/20000) ∧
          (r.length ≤ 20 → |r.sum - 1| ≤ 1/1000)) ∧
    (∀ (nCellTypes : ℕ) (udraws : ℕ → List ℚ) (fixedRange : Option (List (ℤ × ℤ)))
        (intDraws : ℕ → List ℤ) (nSamples : ℕ),
        (∀ i, ∀ x ∈ createFracsRaw nCellTypes (udraws i) fixedRange (intDraws i), 0 ≤ x) →
        (∀ i, 0 < (createFracsRaw nCellTypes (udraws i) fixedRange (intDraws i)).sum) →
        ∀ r ∈ random_generation_fraction nCellTypes udraws fixedRange intDraws nSamples,
          (∀ x ∈ r, 0 ≤ x) ∧ |r.sum - 1| ≤ r.length * (1/200)) := by
  refine ⟨?_, ?_, ?_, ?_⟩
  · intro ints σs k maxValue cellTypes prior nSamples fuel rows hσ hmax hgen r hr
    unfold segment_generation_fraction at hgen
    obtain ⟨rows₀, hcol, rfl⟩ := Option.map_eq_some'.mp hgen
    obtain ⟨r₀, hr₀, rfl⟩ := List.mem_map.mp hr
    rcases segmentCollect_mem ints σs k maxValue cellTypes prior nSamples fuel 0 [] rows₀
        hcol r₀ hr₀ with hmem | ⟨j, rfl⟩
    · exact absurd hmem (List.not_mem_nil r₀)
    · obtain ⟨h1, h2⟩ := rounded_row_bounds' 4 (1/20000) (by norm_num)
        (segmentSample_sum (ints j) (σs j) k maxValue (hσ j) hmax)
        (segmentSample_nonneg (ints j) (σs j) k maxValue)
      exact ⟨h1, h2, fun hlen => row_sum_tol h2 hlen⟩
  · intro firsts others σs nSamples hσ hfirst hpos hall r hr
    unfold seg_random_generation_fraction at hr
    obtain ⟨i, _, rfl⟩ := List.mem_map.mp hr
    obtain ⟨h1, h2⟩ := rounded_row_bounds' 4 (1/20000) (by norm_num)
      (segRandomSample_sum (firsts i) (others i) (σs i) (hσ i) (ne_of_gt (hpos i)))
      (segRandomSample_nonneg (firsts i) (others i) (σs i) (hσ i) (hfirst i).1
        (hfirst i).2 (hpos i) (hall i))
    exact ⟨h1, h2, fun hlen => row_sum_tol h2 hlen⟩
  · intro bins binIdx noise minimalProp k nSamples hn hraw hzs r hr
    unfold fragment_generation_fraction at hr
    obtain ⟨i, _, rfl⟩ := List.mem_map.mp hr
    obtain ⟨h1, h2⟩ := rounded_row_bounds' 4 (1/20000) (by norm_num)
      (fragmentNormalizeRow_sum minimalProp _ (ne_of_gt (hzs i)))
      (fragmentNormalizeRow_nonneg minimalProp _ (le_of_lt (hraw i))
        (fragmentRawRow_nonneg bins (binIdx i) (noise i) k (hn i)) (le_of_lt (hzs i)))
    exact ⟨h1, h2, fun hlen => row_sum_tol h2 hlen⟩
  · intro nCellTypes udraws fixedRange intDraws nSamples hall hpos r hr
    unfold random_generation_fraction at hr
    obtain ⟨i, _, rfl⟩ := List.mem_map.mp hr
    exact rounded_row_bounds' 2 (1/200) (by norm_num)
      (create_fractions_sum nCellTypes (udraws i) fixedRange (intDraws i)
        (ne_of_gt (hpos i)))
      (create_fractions_nonneg nCellTypes (udraws i) fixedRange (intDraws i)
        (le_of_lt (hpos i)) (hall i))

/-- **C1, witness** for the amended theorem: the segment strategy at
`max_value = 10000` with the identity shuffle and all-zero draws produces the
single row `[0, 0, 1]`, which satisfies the amended bound. -/
theorem C1_fraction_rows_amended_witness :
    |([(0:ℚ), 0, 1].sum) - 1| ≤ 1/1000 := by
  have h := C1_fraction_rows_amended.1 (fun _ _ => 0) (fun _ l => l) 3 10000
    ["A", "B", "C"] none 1 1 [[0, 0, 1]] (fun _ l => List.Perm.refl l) (by norm_num)
    (by simp only [segment_generation_fraction, segmentCollect, segmentSample, segmentFrags,
          segmentSampleValid, List.length_nil, List.map_cons, List.map_nil]
        norm_num [roundDec_zero, roundDec_one])
  exact (h [(0:ℚ), 0, 1] (by simp)).2.2 (by simp)

/-! ## Claim C7 -/

/-- **C7.**  For the segment strategy (at the generator's `max_value = 10000`,
where 4-decimal rounding is the identity on the produced fractions) with a
supplied per-cell-type prior range covering every cell type, a normally
terminating call returns exactly `nSamples` rows, and no row has any cell
type's fraction outside that type's `[low, high]` prior interval: draws
violating the prior are rejected (lines 78-84) and retried until `nSamples`
valid vectors are collected (line 48). -/
theorem C7_segment_prior_filter (ints : ℕ → ℕ → ℕ) (σs : ℕ → List ℕ → List ℕ)
    (k : ℕ) (cellTypes : List String) (p : String → ℚ × ℚ) (nSamples fuel : ℕ)
    (rows : List (List ℚ))
    (hσ : ∀ i (l : List ℕ), (σs i l).Perm l)
    (hgen : segment_generation_fraction ints σs k 10000 cellTypes (some p) nSamples fuel
      = some rows) :
    rows.length = nSamples ∧
      ∀ r ∈ rows, ∀ cf ∈ cellTypes.zip r, (p cf.1).1 ≤ cf.2 ∧ cf.2 ≤ (p cf.1).2 := by
  unfold segment_generation_fraction at hgen
  obtain ⟨rows₀, hcol, rfl⟩ := Option.map_eq_some'.mp hgen
  constructor
  · rw [List.length_map]
    exact segmentCollect_length ints σs k 10000 cellTypes (some p) nSamples fuel 0 [] rows₀
      (Nat.zero_le _) hcol
  · intro r hr cf hcf
    obtain ⟨r₀, hr₀, rfl⟩ := List.mem_map.mp hr
    rcases segmentCollect_mem ints σs k 10000 cellTypes (some p) nSamples fuel 0 [] rows₀
        hcol r₀ hr₀ with hmem | ⟨j, rfl⟩
    · exact absurd hmem (List.not_mem_nil r₀)
    · rw [segmentSample_map_roundDec4] at hcf
      have hvalid := segmentCollect_valid ints σs k 10000 cellTypes (some p) nSamples fuel
        0 [] rows₀ (by intro r hmem; exact absurd hmem (List.not_mem_nil r)) hcol
        _ hr₀
      unfold segmentSampleValid at hvalid
      have := List.all_eq_true.mp hvalid cf hcf
      exact of_decide_eq_true this

/-- **C7, witness**: concrete run with three cell types, all-zero integer
draws, the identity shuffle and the prior `[0,1]` for every type; the single
produced row is `[0, 0, 1]`. -/
theorem C7_segment_prior_filter_witness :
    ([[(0:ℚ), 0, 1]] : List (List ℚ)).length = 1 ∧ ((0:ℚ) ≤ 1 ∧ (1:ℚ) ≤ 1) := by
  have h := C7_segment_prior_filter (fun _ _ => 0) (fun _ l => l) 3 ["A", "B", "C"]
    (fun _ => ((0:ℚ), (1:ℚ))) 1 1 [[0, 0, 1]] (fun _ l => List.Perm.refl l)
    (by simp only [segment_generation_fraction, segmentCollect, segmentSample, segmentFrags,
          segmentSampleValid, List.length_nil, List.map_cons, List.map_nil,
          List.zip_cons_cons, List.all_cons, List.all_nil]
        norm_num [roundDec_zero, roundDec_one])
  refine ⟨h.1, ?_⟩
  exact h.2 [(0:ℚ), 0, 1] (by simp) ("C", 1) (by simp)

/-! ## GenerationLoop: the `while` loop of `BulkGEPGenerator.generate_gep`
(lines 578-699)

The loop is modelled at the level of its counters: the batch produced by one
round (fraction sampling → cell sampling → mixing → filtering) is abstracted
by `acc r`, the number of rows of `simulated_gep` surviving all filters in
round `r` (`none` when the marker-ratio filter returned `None`,
line 759-762). -/

/-- The mutable loop state of `generate_gep`: the accepted-sample counter
`generated_bulk_gep_counter`, the number of profile rows appended to the
on-disk csv so far, the round number `n_round`, and the adaptive quantile
`filtering_quantile_upper`. -/
structure LoopState where
  counter : ℕ
  persisted : ℕ
  nRound : ℕ
  qUpper : ℚ
deriving DecidableEq

/-- The quantile-relaxation rule of lines 625-629: increase
`filtering_quantile_upper` by `0.001` while it is below `0.999`, afterwards
by `0.0001`. -/
def lowYieldUpdate (q : ℚ) : ℚ :=
  if q < 999/1000 then q + 1/1000 else q + 1/10000

/-- One round of the loop body (lines 578-699).  When `marker` is set (the
`filtering and filtering_method == 'marker_ratio'` branch) and the round
accepted fewer than 50 rows — including a `None` batch — the quantile is
relaxed (lines 624-634).  A non-`None` batch is then trimmed to the remaining
quota (lines 688-691), counted (line 693) and persisted (line 697); `n_round`
is always incremented (line 699). -/
def roundStep (nSamples : ℕ) (marker : Bool) (accepted : Option ℕ) (s : LoopState) :
    LoopState :=
  let q' := if marker ∧ accepted.getD 0 < 50 then lowYieldUpdate s.qUpper else s.qUpper
  match accepted with
  | none => ⟨s.counter, s.persisted, s.nRound + 1, q'⟩
  | some a =>
    let keep := if nSamples < s.counter + a then nSamples - s.counter else a
    ⟨s.counter + keep, s.persisted + keep, s.nRound + 1, q'⟩

/-- The `while self.generated_bulk_gep_counter < self.n_samples` loop
(line 578): run rounds while the counter is below the target, `fuel` bounding
the number of rounds. -/
def runLoop (nSamples : ℕ) (marker : Bool) (acc : ℕ → Option ℕ) :
    ℕ → LoopState → LoopState
  | 0, s => s
  | fuel+1, s =>
    if s.counter < nSamples then
      runLoop nSamples marker acc fuel (roundStep nSamples marker (acc s.nRound) s)
    else s

theorem roundStep_counter_le (nSamples : ℕ) (marker : Bool) (accepted : Option ℕ)
    (s : LoopState) (h : s.counter ≤ nSamples) :
    (roundStep nSamples marker accepted s).counter ≤ nSamples := by
  unfold roundStep
  cases accepted with
  | none => exact h
  | some a => dsimp only; split_ifs <;> omega

theorem roundStep_persisted (nSamples : ℕ) (marker : Bool) (accepted : Option ℕ)
    (s : LoopState) (h : s.persisted = s.counter) :
    (roundStep nSamples marker accepted s).persisted
      = (roundStep nSamples marker accepted s).counter := by
  unfold roundStep
  cases accepted with
  | none => exact h
  | some a => dsimp only; omega

theorem runLoop_invariant (nSamples : ℕ) (marker : Bool) (acc : ℕ → Option ℕ) :
    ∀ (fuel : ℕ) (s : LoopState), s.counter ≤ nSamples → s.persisted = s.counter →
      (runLoop nSamples marker acc fuel s).counter ≤ nSamples ∧
        (runLoop nSamples marker acc fuel s).persisted
          = (runLoop nSamples marker acc fuel s).counter := by
  intro fuel
  induction fuel with
  | zero => intro s h1 h2; exact ⟨h1, h2⟩
  | succ n ih =>
    intro s h1 h2
    unfold runLoop
    split_ifs with hlt
    · exact ih _ (roundStep_counter_le nSamples marker _ s h1)
        (roundStep_persisted nSamples marker _ s h2)
    · exact ⟨h1, h2⟩

/-! ## Claim C2 -/

/-- **C2.**  When the generation loop terminates normally (the final counter
has reached the target within the executed rounds), the accepted-sample
counter and the number of persisted profile rows both equal the requested
`n_samples` exactly: each round trims any batch that would overshoot the
remaining quota (lines 689-691), and the loop condition (line 578) stops the
loop once the counter reaches the target.  The hypotheses say the loop starts
at or below the target with the persisted rows matching the counter — true
both for a fresh start (both 0) and after the resume reconciliation, which
sets the counter to the number of rows on disk. -/
theorem C2_loop_exact_quota (nSamples : ℕ) (marker : Bool) (acc : ℕ → Option ℕ)
    (fuel : ℕ) (s₀ : LoopState) (hc : s₀.counter ≤ nSamples)
    (hp : s₀.persisted = s₀.counter)
    (hterm : nSamples ≤ (runLoop nSamples marker acc fuel s₀).counter) :
    (runLoop nSamples marker acc fuel s₀).counter = nSamples ∧
      (runLoop nSamples marker acc fuel s₀).persisted = nSamples := by
  obtain ⟨h1, h2⟩ := runLoop_invariant nSamples marker acc fuel s₀ hc hp
  have : (runLoop nSamples marker acc fuel s₀).counter = nSamples := le_antisymm h1 hterm
  exact ⟨this, by rw [h2, this]⟩

/-- **C2, witness**: requesting 3 samples with per-round acceptances of 2
(second batch trimmed from 2 to 1) yields exactly 3 accepted and 3 persisted
rows. -/
theorem C2_loop_exact_quota_witness :
    (runLoop 3 false (fun _ => some 2) 5 ⟨0, 0, 0, 95/100⟩).counter = 3 ∧
      (runLoop 3 false (fun _ => some 2) 5 ⟨0, 0, 0, 95/100⟩).persisted = 3 := by
  apply C2_loop_exact_quota 3 false (fun _ => some 2) 5 ⟨0, 0, 0, 95/100⟩
    (by norm_num) rfl
  simp only [runLoop, roundStep, lowYieldUpdate]
  norm_num

/-! ## Claim C4 -/

/-- **C4, counterexample.**  The claim asserts the quantile relaxation is
bounded by a hard ceiling (e.g. `quantile ≥ 0.9999`) at which the job
terminates and reports its yield.  No such ceiling exists in the code (lines
622-634 only ever increase the quantile): starting from the caller-supplied
quantile `0.9998` with every marker-ratio round rejected, after three rounds
the quantile is `1.0001` — beyond the example ceiling `0.9999` and beyond `1`
(no longer a meaningful quantile) — while the counter is still `0 < 1`, so
the loop condition still holds and the loop keeps running instead of
terminating. -/
theorem C4_no_ceiling_counterexample :
    (runLoop 1 true (fun _ => none) 3 ⟨0, 0, 0, 9998/10000⟩).qUpper = 10001/10000 ∧
      (runLoop 1 true (fun _ => none) 3 ⟨0, 0, 0, 9998/10000⟩).counter = 0 ∧
      ((9999:ℚ)/10000 < 10001/10000) ∧ ((1:ℚ) < 10001/10000) ∧
      (runLoop 1 true (fun _ => none) 3 ⟨0, 0, 0, 9998/10000⟩).counter < 1 := by
  have hrun : runLoop 1 true (fun _ => none) 3 ⟨0, 0, 0, 9998/10000⟩
      = ⟨0, 0, 3, 10001/10000⟩ := by
    simp only [runLoop, roundStep, lowYieldUpdate]
    norm_num
  rw [hrun]
  refine ⟨rfl, rfl, by norm_num, by norm_num, by norm_num⟩

/-- **C4, amended.**  (a) Whenever a marker-ratio filtering round accepts
fewer than 50 candidates (including a `None` batch), the filtering quantile
is increased — by `0.001` when it is below `0.999` and by `0.0001` otherwise.
(b) There is **no** hard ceiling: with every round rejected, the counter
never advances and the quantile grows without bound (`q₀ + fuel·0.0001` after
any number of rounds), so the loop never terminates on its own; termination
is only ever reached through the sample counter. -/
theorem C4_relaxation_rule_unbounded_amended :
    (∀ (nSamples : ℕ) (a : Option ℕ) (s : LoopState), a.getD 0 < 50 →
      (roundStep nSamples true a s).qUpper
        = (if s.qUpper < 999/1000 then s.qUpper + 1/1000 else s.qUpper + 1/10000)) ∧
    (∀ (nSamples fuel : ℕ) (s : LoopState), 1 ≤ nSamples → s.counter = 0 →
      (runLoop nSamples true (fun _ => none) fuel s).counter = 0 ∧
        s.qUpper + fuel * (1/10000)
          ≤ (runLoop nSamples true (fun _ => none) fuel s).qUpper) := by
  constructor
  · intro nSamples a s ha
    unfold roundStep lowYieldUpdate
    cases a with
    | none => simp
    | some n =>
      simp only [Option.getD_some] at ha
      dsimp only
      rw [if_pos ⟨rfl, ha⟩]
  · intro nSamples fuel
    induction fuel with
    | zero => intro s _ h0; simp [runLoop, h0]
    | succ n ih =>
      intro s hn h0
      unfold runLoop
      have hlt : s.counter < nSamples := by omega
      rw [if_pos hlt]
      have hstep : (roundStep nSamples true none s)
          = ⟨s.counter, s.persisted, s.nRound + 1, lowYieldUpdate s.qUpper⟩ := by
        unfold roundStep
        simp
      obtain ⟨ih1, ih2⟩ := ih (roundStep nSamples true none s) hn (by rw [hstep]; exact h0)
      refine ⟨ih1, le_trans ?_ ih2⟩
      rw [hstep]
      show s.qUpper + (n + 1 : ℕ) * (1/10000) ≤ lowYieldUpdate s.qUpper + n * (1/10000)
      unfold lowYieldUpdate
      split_ifs <;> push_cast <;> linarith

/-- **C4, witness** for the amended theorem: three all-rejected rounds from
quantile `0.9998` leave the counter at `0` while the quantile has grown by at
least `3 · 0.0001`. -/
theorem C4_relaxation_rule_unbounded_witness :
    (runLoop 1 true (fun _ => none) 3 ⟨0, 0, 0, 9998/10000⟩).counter = 0 ∧
      (9998:ℚ)/10000 + 3 * (1/10000)
        ≤ (runLoop 1 true (fun _ => none) 3 ⟨0, 0, 0, 9998/10000⟩).qUpper :=
  C4_relaxation_rule_unbounded_amended.2 1 3 ⟨0, 0, 0, 9998/10000⟩ (by norm_num) rfl

/-! ## Mixer: `BulkGEPGenerator._map_cell_id2exp`, `mul` branch (lines 911-935) -/

/-- The `mul` combination of `_map_cell_id2exp` for one sample (line 924):
`(current_merged.values.T @ current_cell_frac.values).reshape(-1)`, where
`exprs` holds one (linear-space) expression row of length `g` per sampled
cell — exactly one cell per cell type, the `assert` of lines 914-915 — and
`fracs` the same cell types' fractions in the same order (the frame is
re-indexed by the group's cell types at line 922).  numpy matrix-vector
semantics: entry `j` of `M.T @ v` is `Σ_i M[i][j] * v[i]`. -/
def mulCombine (exprs : List (List ℚ)) (fracs : List ℚ) (g : ℕ) : List ℚ :=
  (List.range g).map (fun j => ((exprs.zip fracs).map (fun p => p.1.getD j 0 * p.2)).sum)

/-- Modelled from the spec: the fraction-weighted linear combination
`profile = Σ_t fraction[t] * expression[t]` — each per-type expression row
scaled by its fraction and the scaled rows added up over the gene universe. -/
def weightedSumSpec (exprs : List (List ℚ)) (fracs : List ℚ) (g : ℕ) : List ℚ :=
  (exprs.zip fracs).foldr
    (fun p acc => List.zipWith (· + ·) (p.1.map (fun x => x * p.2)) acc)
    (List.replicate g 0)

theorem range_map_zero (g : ℕ) :
    (List.range g).map (fun _ : ℕ => (0:ℚ)) = List.replicate g 0 := by
  apply List.ext_getElem
  · simp
  · intro j h1 h2
    simp

theorem zipWith_add_map_range (r : List ℚ) (c : ℚ) (g : ℕ) (f : ℕ → ℚ) (hr : r.length = g) :
    List.zipWith (· + ·) (r.map (fun x => x * c)) ((List.range g).map f)
      = (List.range g).map (fun j => r.getD j 0 * c + f j) := by
  apply List.ext_getElem
  · simp [hr]
  · intro j h1 h2
    simp only [List.length_zipWith, List.length_map, List.length_range, hr,
      min_self] at h1
    have hj : j < r.length := by omega
    have hgetD : r.getD j 0 = r[j] := List.getD_eq_getElem r 0 hj
    simp [List.getElem_zipWith, List.getElem_map, List.getElem_range, hgetD]
    exact Or.inl (by rw [List.getElem?_eq_getElem hj]; rfl)

/-! ## Claim C5 -/

/-- **C5.**  For the weighted-mix (`mul`) method with exactly one cell per
cell type, the combined linear-space profile — the matrix product
`expressions.T @ fractions` of line 924 — equals the fraction-weighted linear
combination `Σ_t fraction[t] * expression[t]` described by the spec; in
particular, for fractions `{A: 0.3, B: 0.7}` and expression rows
`A = [10, 0]`, `B = [0, 20]` the combined linear profile before
relative-abundance normalization is `[3, 14]`. -/
theorem C5_weighted_mix_is_linear_combination :
    (∀ (exprs : List (List ℚ)) (fracs : List ℚ) (g : ℕ),
      (∀ r ∈ exprs, r.length = g) →
      mulCombine exprs fracs g = weightedSumSpec exprs fracs g) ∧
    mulCombine [[10, 0], [0, 20]] [3/10, 7/10] 2 = [3, 14] := by
  constructor
  · intro exprs
    induction exprs with
    | nil =>
      intro fracs g _
      simp only [mulCombine, weightedSumSpec, List.zip_nil_left, List.map_nil,
        List.sum_nil, List.foldr_nil]
      exact range_map_zero g
    | cons r exprs ih =>
      intro fracs g hlen
      cases fracs with
      | nil =>
        simp only [mulCombine, weightedSumSpec, List.zip_nil_right, List.map_nil,
          List.sum_nil, List.foldr_nil]
        exact range_map_zero g
      | cons c cs =>
        have hr : r.length = g := hlen r (by simp)
        have ihcs := ih cs g (fun r' hr' => hlen r' (by simp [hr']))
        simp only [mulCombine, weightedSumSpec, List.zip_cons_cons, List.map_cons,
          List.sum_cons, List.foldr_cons]
        rw [show ((exprs.zip cs).foldr
              (fun p acc => List.zipWith (· + ·) (p.1.map (fun x => x * p.2)) acc)
              (List.replicate g 0)) = weightedSumSpec exprs cs g from rfl, ← ihcs]
        unfold mulCombine
        rw [zipWith_add_map_range r c g _ hr]
  · show (List.range 2).map _ = _
    simp only [mulCombine, List.zip_cons_cons, List.zip_nil_left, List.zip_nil_right,
      List.map_cons, List.map_nil, List.sum_cons, List.sum_nil, List.range_succ,
      List.range_zero, List.nil_append, List.cons_append]
    norm_num

/-- **C5, witness**: the general refinement applied at the concrete
two-type/two-gene instance of the claim. -/
theorem C5_weighted_mix_is_linear_combination_witness :
    mulCombine [[10, 0], [0, 20]] [3/10, 7/10] 2
      = weightedSumSpec [[10, 0], [0, 20]] [3/10, 7/10] 2 :=
  C5_weighted_mix_is_linear_combination.1 [[10, 0], [0, 20]] [3/10, 7/10] 2
    (by intro r hr
        simp only [List.mem_cons, List.not_mem_nil, or_false] at hr
        rcases hr with rfl | rfl <;> rfl)

/-! ## ReferenceFilter quota accounting:
`BulkGEPGenerator._filter_gep_by_reference` (lines 724-762)

The radius query itself (`QueryNeighbors.get_neighbors_by_radius`, imported
from `deside.utility`) is not among this repository's sources; it is
modelled from the spec and the call-site docstring: for each *kept* reference
point — one whose counter is still below the quota, excluded otherwise via
`_keep_ref` (lines 748-753) — the query returns at most `n_top` neighbouring
candidates ("if too many neighbors were founded for one single sample, only
keep n_top neighbors"), and an excluded reference receives none.  `found r`
is the number of neighbours credited to reference `r` this round; the counter
update of lines 754-757 adds it to `ref_neighbor_counter[r]`. -/

/-- One round's update of `ref_neighbor_counter` (lines 748-757): references
already at or above the quota are excluded from the query and receive
nothing; the others gain this round's neighbour count. -/
def filterRoundCounter {ρ : Type} (quota : ℕ) (found : ρ → ℕ) (counter : ρ → ℕ) :
    ρ → ℕ :=
  fun r => if counter r < quota then counter r + found r else counter r

/-- The counter accumulated over the filtering rounds of one job, one
`found` function per round. -/
def runFilterRounds {ρ : Type} (quota : ℕ) : List (ρ → ℕ) → (ρ → ℕ) → (ρ → ℕ)
  | [], c => c
  | f :: fs, c => runFilterRounds quota fs (filterRoundCounter quota f c)

theorem runFilterRounds_le {ρ : Type} (quota nTop : ℕ) :
    ∀ (rounds : List (ρ → ℕ)) (c : ρ → ℕ),
      (∀ f ∈ rounds, ∀ r, f r ≤ nTop) → (∀ r, c r ≤ quota - 1 + nTop) →
      ∀ r, runFilterRounds quota rounds c r ≤ quota - 1 + nTop := by
  intro rounds
  induction rounds with
  | nil => intro c _ hc r; exact hc r
  | cons f fs ih =>
    intro c hcap hc r
    refine ih _ (fun g hg => hcap g (List.mem_cons_of_mem f hg)) ?_ r
    intro r'
    unfold filterRoundCounter
    split_ifs with h
    · have := hcap f (List.mem_cons_self f fs) r'
      omega
    · exact hc r'

/-! ## Claim C3 -/

/-- **C3, counterexample.**  The claim asserts the total credits of one
reference never exceed the per-reference quota `n_neighbors_each_ref`.  With
quota 2 (reachable whenever the reference cohort is smaller than `n_samples`,
lines 614-617, where `n_top` is then capped at the quota, line 620), a
reference holding 1 credit is still below the quota, stays in `_keep_ref`,
and can be credited 2 more neighbours in a single round — note both rounds'
counts (1 and 2) respect the per-round cap `n_top = 2` — ending at 3 > 2. -/
theorem C3_quota_exceeded_counterexample :
    runFilterRounds 2 [fun _ : Unit => 1, fun _ => 2] (fun _ => 0) () = 3 ∧
      ¬ runFilterRounds 2 [fun _ : Unit => 1, fun _ => 2] (fun _ => 0) () ≤ 2 ∧
      ((1:ℕ) ≤ 2 ∧ (2:ℕ) ≤ 2 ∧ (2:ℕ) ≤ 2) := by
  refine ⟨rfl, ?_, by omega⟩
  intro h
  simp [runFilterRounds, filterRoundCounter] at h

/-- **C3, amended.**  Starting from zero counters, with every round's
per-reference neighbour count capped at `n_top` (the modelled radius query),
a reference's total credits never exceed `quota − 1 + n_top`; since the code
caps `n_top` at the quota (line 620), the credits never exceed
`2·quota − 1` — and for the default `quota = 1` this is the original claim's
bound `quota` itself. -/
theorem C3_quota_bound_amended {ρ : Type} (quota nTop : ℕ) (rounds : List (ρ → ℕ))
    (hcap : ∀ f ∈ rounds, ∀ r, f r ≤ nTop) (hTop : nTop ≤ quota) (r : ρ) :
    runFilterRounds quota rounds (fun _ => 0) r ≤ quota - 1 + nTop ∧
      runFilterRounds quota rounds (fun _ => 0) r ≤ 2 * quota - 1 ∧
      (quota = 1 → runFilterRounds quota rounds (fun _ => 0) r ≤ quota) := by
  have h := runFilterRounds_le quota nTop rounds (fun _ => 0) hcap (fun _ => Nat.zero_le _) r
  exact ⟨h, by omega, fun h1 => by omega⟩

/-- **C3, witness**: two rounds crediting 1 and then 2 neighbours under
quota 2 stay within the amended bound `2·2 − 1 = 3`. -/
theorem C3_quota_bound_amended_witness :
    runFilterRounds 2 [fun _ : Unit => 1, fun _ => 2] (fun _ => 0) () ≤ 2 * 2 - 1 :=
  (C3_quota_bound_amended 2 2 [fun _ : Unit => 1, fun _ => 2]
    (by intro f hf r
        simp only [List.mem_cons, List.not_mem_nil, or_false] at hf
        rcases hf with rfl | rfl <;> norm_num)
    (le_refl 2) ()).2.1

/-! ## ReferenceFilter: the centroid L1-band filter
(`filtering_method == 'median_gep' | 'mean_gep'`, lines 659-686) -/

/-- Insertion into a sorted list (ascending), for modelling numpy's sort. -/
def insertSorted (x : ℚ) : List ℚ → List ℚ
  | [] => [x]
  | y :: ys => if x ≤ y then x :: y :: ys else y :: insertSorted x ys

/-- Ascending sort, as numpy sorts before computing a quantile or median. -/
def sortQ (l : List ℚ) : List ℚ := l.foldr insertSorted []

/-- `np.quantile(a, q)` with the default linear interpolation: with the
values sorted as `s` and `h = q·(n−1)`, the result is
`s[⌊h⌋] + (h − ⌊h⌋)·(s[⌈h⌉] − s[⌊h⌋])`. -/
def quantileQ (l : List ℚ) (q : ℚ) : ℚ :=
  let s := sortQ l
  let h : ℚ := q * ((l.length : ℚ) - 1)
  let lo := s.getD (⌊h⌋.toNat) 0
  let hi := s.getD (⌈h⌉.toNat) 0
  lo + (h - ⌊h⌋) * (hi - lo)

/-- `np.median` / `DataFrame.median`: middle element of the sorted values, or
the mean of the two middle elements for an even count. -/
def medianQ (l : List ℚ) : ℚ :=
  let s := sortQ l
  let n := l.length
  if n % 2 = 1 then s.getD (n / 2) 0
  else (s.getD (n / 2 - 1) 0 + s.getD (n / 2) 0) / 2

/-- `np.linalg.norm(a - b, ord=1)` of two aligned rows: the L1 distance. -/
def l1Dist (a b : List ℚ) : ℚ := ((a.zip b).map (fun p => |p.1 - p.2|)).sum

/-- The reference centroid `m_gep_ref` (lines 662-665): the per-gene median
(`median_gep`) or mean (`mean_gep`) of the reference cohort, computed once. -/
def centroidGep (useMedian : Bool) (ref : List (List ℚ)) (g : ℕ) : List ℚ :=
  (List.range g).map (fun j =>
    if useMedian then medianQ (ref.map (fun row => row.getD j 0))
    else (ref.map (fun row => row.getD j 0)).sum / (ref.length : ℚ))

/-- The distances of the reference cohort to its own centroid
(`l1_distance_with_center_ref`, lines 668-669). -/
def refCentroidDists (useMedian : Bool) (ref : List (List ℚ)) (g : ℕ) : List ℚ :=
  ref.map (fun row => l1Dist row (centroidGep useMedian ref g))

/-- The centroid L1-band filter (lines 659-686): the upper cutoff is the
`qUpper` quantile of the reference cohort's own distance-to-centroid
distribution (lines 670-671); with a lower quantile supplied, candidates keep
`lower ≤ d ∧ d ≤ upper` (lines 675-684, both bounds inclusive), otherwise
only `d ≤ upper` (line 686). -/
def centroidBandFilter (useMedian : Bool) (ref cands : List (List ℚ)) (g : ℕ)
    (qLower : Option ℚ) (qUpper : ℚ) : List (List ℚ) :=
  let m := centroidGep useMedian ref g
  let dHi := quantileQ (refCentroidDists useMedian ref g) qUpper
  match qLower with
  | some ql =>
    let dLo := quantileQ (refCentroidDists useMedian ref g) ql
    cands.filter (fun row => decide (l1Dist row m ≤ dHi ∧ dLo ≤ l1Dist row m))
  | none => cands.filter (fun row => decide (l1Dist row m ≤ dHi))

/-! ## Claim C8 -/

/-- **C8.**  Under the centroid L1-band filter a candidate is accepted iff
its L1 distance to the reference centroid (per-gene median or mean, computed
once) lies within the inclusive band
`[lowerQuantileDistance, upperQuantileDistance]` of the reference cohort's
own distance-to-centroid distribution; with the lower quantile omitted
(`None`), acceptance is exactly the upper-bound cutoff
`distance ≤ upperQuantileDistance`. -/
theorem C8_centroid_band_accept_iff (useMedian : Bool) (ref cands : List (List ℚ))
    (g : ℕ) (qUpper : ℚ) (row : List ℚ) :
    (∀ ql : ℚ,
      (row ∈ centroidBandFilter useMedian ref cands g (some ql) qUpper ↔
        row ∈ cands ∧
          (quantileQ (refCentroidDists useMedian ref g) ql
              ≤ l1Dist row (centroidGep useMedian ref g) ∧
            l1Dist row (centroidGep useMedian ref g)
              ≤ quantileQ (refCentroidDists useMedian ref g) qUpper))) ∧
    (row ∈ centroidBandFilter useMedian ref cands g none qUpper ↔
      row ∈ cands ∧
        l1Dist row (centroidGep useMedian ref g)
          ≤ quantileQ (refCentroidDists useMedian ref g) qUpper) := by
  constructor
  · intro ql
    unfold centroidBandFilter
    rw [List.mem_filter]
    simp only [decide_eq_true_eq]
    tauto
  · unfold centroidBandFilter
    rw [List.mem_filter]
    simp only [decide_eq_true_eq]

/-! ## String primitives (Python `in`, `str.split('_')`, `int()`) -/

/-- Whether `sub` is an initial segment of the second list. -/
def beginsWith {α : Type} [DecidableEq α] : List α → List α → Bool
  | [], _ => true
  | _ :: _, [] => false
  | x :: xs, y :: ys => x = y && beginsWith xs ys

/-- Whether `sub` occurs contiguously inside the second list. -/
def hasInfix {α : Type} [DecidableEq α] (sub : List α) : List α → Bool
  | [] => beginsWith sub []
  | x :: xs => beginsWith sub (x :: xs) || hasInfix sub xs

/-- Python's `sub in s` on strings. -/
def strContains (s sub : String) : Bool := hasInfix sub.toList s.toList

theorem beginsWith_append {α : Type} [DecidableEq α] (sub : List α) :
    ∀ a b : List α, beginsWith sub a = true → beginsWith sub (a ++ b) = true := by
  induction sub with
  | nil => intro a b _; rfl
  | cons x xs ih =>
    intro a b h
    cases a with
    | nil => exact absurd h (by simp [beginsWith])
    | cons y ys =>
      simp only [beginsWith, Bool.and_eq_true, decide_eq_true_eq] at h
      simp only [List.cons_append, beginsWith, Bool.and_eq_true, decide_eq_true_eq]
      exact ⟨h.1, ih ys b h.2⟩

theorem hasInfix_append_left {α : Type} [DecidableEq α] (sub : List α) :
    ∀ a b : List α, hasInfix sub a = true → hasInfix sub (a ++ b) = true := by
  intro a
  induction a with
  | nil =>
    intro b h
    simp only [hasInfix] at h
    cases b with
    | nil => exact h
    | cons y ys =>
      simp only [List.nil_append, hasInfix, Bool.or_eq_true]
      exact Or.inl (beginsWith_append sub [] (y :: ys) h)
  | cons x xs ih =>
    intro b h
    simp only [hasInfix, Bool.or_eq_true] at h
    simp only [List.cons_append, hasInfix, Bool.or_eq_true]
    rcases h with h | h
    · exact Or.inl (beginsWith_append sub (x :: xs) b h)
    · exact Or.inr (ih b h)

/-- Python's `s.split('_')` on a single-character separator, over the
character list. -/
def splitOnChar (c : Char) : List Char → List (List Char)
  | [] => [[]]
  | x :: xs =>
    if x = c then [] :: splitOnChar c xs
    else
      match splitOnChar c xs with
      | [] => [[x]]
      | t :: ts => (x :: t) :: ts

/-- Python's `int()` on a token of decimal digits (`none` models the
`ValueError` on anything else; signs and whitespace are not produced by the
generator's sample ids). -/
def parseNatAux : List Char → ℕ → Option ℕ
  | [], acc => some acc
  | c :: cs, acc =>
    if 48 ≤ c.toNat ∧ c.toNat ≤ 57 then parseNatAux cs (acc * 10 + (c.toNat - 48))
    else none

def parseNat (cs : List Char) : Option ℕ :=
  if cs.isEmpty then none else parseNatAux cs 0

/-! ## `BulkGEPGenerator._generate_cell_fraction` (lines 410-481) -/

/-- The strategy names the dispatcher of lines 424-476 actually accepts. -/
def supportedSamplingMethods : List String :=
  ["segment", "seg_random", "fragment", "random"]

/-- The `ValueError` message of lines 478-480. -/
def invalidSamplingMethodMsg (m : String) : String :=
  "Only \"segment\" and \"random\" were supported for parameter \"sampling_method\", "
    ++ m ++ " is invalid"

/-- `_generate_cell_fraction` (lines 410-481): dispatch on `sampling_method`
to the four samplers (segment is called with `max_value = 10000`, line 426;
`random` drops a `sampling_range` covering fewer types than used, lines
468-473, which `_create_fractions` would also do on its own); any other name
raises `ValueError` with the message above.  The randomness streams of the
samplers are passed through; `fuel` bounds the segment retry loop (the inner
`Option` is `none` when it is exhausted).  The `random_n_cell_type`
sub-branch of the fragment strategy (lines 442-465) is not modelled: all
claims concern the default `random_n_cell_type = None` path. -/
def _generate_cell_fraction
    (samplingMethod : String) (nCellFrac : ℕ) (cellTypeUsed : List String)
    (prior : Option (String → ℚ × ℚ))
    (ints : ℕ → ℕ → ℕ) (σsN : ℕ → List ℕ → List ℕ)
    (firsts : ℕ → ℚ) (others : ℕ → List ℚ) (σsQ : ℕ → List ℚ → List ℚ)
    (binIdx : ℕ → ℕ → ℕ) (noiseF : ℕ → ℕ → ℚ)
    (udraws : ℕ → List ℚ) (samplingRange : Option (List (ℤ × ℤ)))
    (intDraws : ℕ → List ℤ) (fuel : ℕ) :
    Except String (Option (List (List ℚ))) :=
  if samplingMethod = "segment" then
    .ok (segment_generation_fraction ints σsN cellTypeUsed.length 10000 cellTypeUsed
      prior nCellFrac fuel)
  else if samplingMethod = "seg_random" then
    .ok (some (seg_random_generation_fraction firsts others σsQ nCellFrac))
  else if samplingMethod = "fragment" then
    .ok (some (fragment_generation_fraction 10 binIdx noiseF (5/1000)
      cellTypeUsed.length nCellFrac))
  else if samplingMethod = "random" then
    let sr := match samplingRange with
      | some fr => if fr.length < cellTypeUsed.length then none else some fr
      | none => none
    .ok (some (random_generation_fraction cellTypeUsed.length udraws sr intDraws
      nCellFrac))
  else
    .error (invalidSamplingMethodMsg samplingMethod)

/-! ## Claim C9 -/

/-- **C9, counterexample.**  An unsupported name (`"foo"`) does raise a
`ValueError`, but the message lists only `"segment"` and `"random"` — it does
not mention `"fragment"` (nor `"seg_random"`), although both are in the
supported set and are accepted by the dispatcher — so the message does not
list the supported set. -/
theorem C9_error_message_counterexample :
    _generate_cell_fraction "foo" 1 ["A"] none (fun _ _ => 0) (fun _ l => l) (fun _ => 0)
        (fun _ => []) (fun _ l => l) (fun _ _ => 0) (fun _ _ => 0) (fun _ => [])
        none (fun _ => []) 0
      = .error (invalidSamplingMethodMsg "foo") ∧
    ("fragment" ∈ supportedSamplingMethods) ∧
    strContains (invalidSamplingMethodMsg "foo") "fragment" = false ∧
    strContains (invalidSamplingMethodMsg "foo") "seg_random" = false ∧
    _generate_cell_fraction "fragment" 1 ["A"] none (fun _ _ => 0) (fun _ l => l)
        (fun _ => 0) (fun _ => []) (fun _ l => l) (fun _ _ => 0) (fun _ _ => 0)
        (fun _ => []) none (fun _ => []) 0
      = .ok (some (fragment_generation_fraction 10 (fun _ _ => 0) (fun _ _ => 0)
          (5/1000) 1 1)) := by
  exact ⟨rfl, by decide, by decide, by decide, rfl⟩

/-- **C9, amended.**  For every `sampling_method` outside the supported set
`{segment, seg_random, fragment, random}`, `_generate_cell_fraction` raises a
`ValueError` whose message names only `"segment"` and `"random"` (the message
predates the two later strategies and does not list the full supported
set). -/
theorem C9_invalid_method_error_amended (m : String)
    (hm : m ∉ supportedSamplingMethods)
    (nCellFrac : ℕ) (cellTypeUsed : List String) (prior : Option (String → ℚ × ℚ))
    (ints : ℕ → ℕ → ℕ) (σsN : ℕ → List ℕ → List ℕ) (firsts : ℕ → ℚ)
    (others : ℕ → List ℚ) (σsQ : ℕ → List ℚ → List ℚ) (binIdx : ℕ → ℕ → ℕ)
    (noiseF : ℕ → ℕ → ℚ) (udraws : ℕ → List ℚ)
    (samplingRange : Option (List (ℤ × ℤ))) (intDraws : ℕ → List ℤ) (fuel : ℕ) :
    _generate_cell_fraction m nCellFrac cellTypeUsed prior ints σsN firsts others σsQ
        binIdx noiseF udraws samplingRange intDraws fuel
      = .error (invalidSamplingMethodMsg m) ∧
    strContains (invalidSamplingMethodMsg m) "segment" = true ∧
    strContains (invalidSamplingMethodMsg m) "random" = true := by
  simp only [supportedSamplingMethods, List.mem_cons, List.not_mem_nil, or_false,
    not_or] at hm
  obtain ⟨h1, h2, h3, h4⟩ := hm
  refine ⟨?_, ?_, ?_⟩
  · unfold _generate_cell_fraction
    rw [if_neg h1, if_neg h2, if_neg h3, if_neg h4]
  · unfold strContains invalidSamplingMethodMsg
    rw [show ("Only \"segment\" and \"random\" were supported for parameter \"sampling_method\", "
          ++ m ++ " is invalid").toList
        = "Only \"segment\" and \"random\" were supported for parameter \"sampling_method\", ".toList
          ++ (m ++ " is invalid").toList by
      simp [String.toList, String.data_append, List.append_assoc]]
    exact hasInfix_append_left _ _ _ (by decide)
  · unfold strContains invalidSamplingMethodMsg
    rw [show ("Only \"segment\" and \"random\" were supported for parameter \"sampling_method\", "
          ++ m ++ " is invalid").toList
        = "Only \"segment\" and \"random\" were supported for parameter \"sampling_method\", ".toList
          ++ (m ++ " is invalid").toList by
      simp [String.toList, String.data_append, List.append_assoc]]
    exact hasInfix_append_left _ _ _ (by decide)

/-- **C9, witness**: the amended theorem applied at the unsupported name
`"foo"`. -/
theorem C9_invalid_method_error_amended_witness :
    _generate_cell_fraction "foo" 1 ["A"] none (fun _ _ => 0) (fun _ l => l) (fun _ => 0)
        (fun _ => []) (fun _ l => l) (fun _ _ => 0) (fun _ _ => 0) (fun _ => [])
        none (fun _ => []) 0
      = .error (invalidSamplingMethodMsg "foo") :=
  (C9_invalid_method_error_amended "foo" (by decide) 1 ["A"] none (fun _ _ => 0)
    (fun _ l => l) (fun _ => 0) (fun _ => []) (fun _ l => l) (fun _ _ => 0)
    (fun _ _ => 0) (fun _ => []) none (fun _ => []) 0).1

/-! ## Resume reconciliation:
`BulkGEPGenerator._check_intermediate_generated_gep` (lines 958-987) -/

/-- The partial on-disk artifacts as seen by the resume check: the sample-id
columns of the fraction csv and profile csv (`none` = file absent), whether
the cell-id audit csv exists, and the neighbor-quota csv contents (when it
exists). -/
structure ResumeFS where
  fracIds : Option (List String)
  gepIds : Option (List String)
  cellIdFile : Bool
  quotaFile : Option (List (String × ℕ))
deriving DecidableEq

/-- The state after the resume check: the (possibly modified) file system,
`generated_bulk_gep_counter`, `n_round`, and the reloaded in-memory
`ref_neighbor_counter`. -/
structure ResumeOutcome where
  fs : ResumeFS
  counter : ℕ
  nRound : ℕ
  refNeighborCounter : List (String × ℕ)
deriving DecidableEq

/-- `index.duplicated(keep='first')` removal: keep the first occurrence of
each sample id, preserving order (lines 965, 968). -/
def dedupKeepFirst : List String → List String :=
  go []
where
  go : List String → List String → List String
    | _, [] => []
    | seen, x :: xs =>
      if x ∈ seen then go seen xs else x :: go (x :: seen) xs

/-- Parse the round number out of the last sample id (lines 972-975): token
index 3 of `id.split('_')` when the id contains `'seg_random'`, token index 2
otherwise; `none` models the `ValueError` of a failed `int()`. -/
def parseRound (lastId : String) : Option ℕ :=
  let tokens := splitOnChar (Char.ofNat 95) lastId.toList
  if strContains lastId "seg_random" then parseNat (tokens.getD 3 [])
  else parseNat (tokens.getD 2 [])

/-- `_check_intermediate_generated_gep` (lines 958-987): with both the
fraction csv and the profile csv present, deduplicate their sample ids and
intersect them (in fraction-table order, line 969); on agreement of all three
row counts, resume with `counter = |common|`, `n_round = parsed + 1` and the
quota table reloaded if present; on disagreement remove the fraction csv, the
profile csv and the cell-id csv — `os.remove` on a missing cell-id csv and a
failed `int()` surface as `Except.error`, like the uncaught Python
exceptions.  With either main csv absent, nothing happens. -/
def _check_intermediate_generated_gep (fs : ResumeFS) : Except String ResumeOutcome :=
  match fs.fracIds with
  | none => .ok ⟨fs, 0, 0, []⟩
  | some fracRaw =>
    match fs.gepIds with
    | none => .ok ⟨fs, 0, 0, []⟩
    | some gepRaw =>
      let frac := dedupKeepFirst fracRaw
      let gep := dedupKeepFirst gepRaw
      let common := frac.filter (fun i => gep.contains i)
      if common.length = gep.length ∧ common.length = frac.length then
        match parseRound (frac.getLastD "") with
        | none => .error "ValueError: invalid round number in sample id"
        | some n => .ok ⟨fs, common.length, n + 1, fs.quotaFile.getD []⟩
      else
        if fs.cellIdFile then .ok ⟨⟨none, none, false, fs.quotaFile⟩, 0, 0, []⟩
        else .error "FileNotFoundError: sampled_sc_cell_id csv is missing"

/-! ## Claim C6 -/

/-- **C6, counterexample.**  The claim says that on disagreement *all*
partial artifacts are discarded.  With a fraction table and profile table
whose sample ids disagree and a neighbor-quota table on disk, the code
removes only the fraction, profile and cell-id csvs (lines 985-987) — the
neighbor-quota table file is left in place. -/
theorem C6_quota_table_not_discarded_counterexample :
    _check_intermediate_generated_gep
        ⟨some ["s_segment_0_1"], some ["s_segment_0_2"], true, some [("TCGA-1", 1)]⟩
      = .ok ⟨⟨none, none, false, some [("TCGA-1", 1)]⟩, 0, 0, []⟩ ∧
    (⟨none, none, false, some [("TCGA-1", 1)]⟩ : ResumeFS).quotaFile ≠ none := by
  exact ⟨rfl, by simp⟩

/-- **C6, amended.**  On resume with both main csvs present: if the
deduplicated sample-id intersection has the same size as both the fraction
table and the profile table, the accepted-count counter is set to that size
and the round counter to one past the round parsed from the suffix of the
last accepted sample id, with all files untouched; otherwise the fraction
table, profile table and cell-id audit trail are deleted and the job
restarts from zero — never silently merged — but the neighbor-quota table
file is **not** deleted. -/
theorem C6_resume_reconciliation_amended (fracRaw gepRaw : List String)
    (cellId : Bool) (quota : Option (List (String × ℕ))) (n : ℕ)
    (hparse : parseRound ((dedupKeepFirst fracRaw).getLastD "") = some n) :
    (((dedupKeepFirst fracRaw).filter
          (fun i => (dedupKeepFirst gepRaw).contains i)).length
            = (dedupKeepFirst gepRaw).length ∧
      ((dedupKeepFirst fracRaw).filter
          (fun i => (dedupKeepFirst gepRaw).contains i)).length
            = (dedupKeepFirst fracRaw).length →
      _check_intermediate_generated_gep ⟨some fracRaw, some gepRaw, cellId, quota⟩
        = .ok ⟨⟨some fracRaw, some gepRaw, cellId, quota⟩,
            ((dedupKeepFirst fracRaw).filter
              (fun i => (dedupKeepFirst gepRaw).contains i)).length,
            n + 1, quota.getD []⟩) ∧
    (¬(((dedupKeepFirst fracRaw).filter
          (fun i => (dedupKeepFirst gepRaw).contains i)).length
            = (dedupKeepFirst gepRaw).length ∧
        ((dedupKeepFirst fracRaw).filter
          (fun i => (dedupKeepFirst gepRaw).contains i)).length
            = (dedupKeepFirst fracRaw).length) →
      cellId = true →
      _check_intermediate_generated_gep ⟨some fracRaw, some gepRaw, cellId, quota⟩
        = .ok ⟨⟨none, none, false, quota⟩, 0, 0, []⟩) := by
  constructor
  · intro hagree
    unfold _check_intermediate_generated_gep
    dsimp only
    rw [if_pos hagree, hparse]
  · intro hdis hcell
    unfold _check_intermediate_generated_gep
    dsimp only
    rw [if_neg hdis, if_pos hcell]

/-- **C6, witness**: a consistent pair of on-disk tables with the single id
`s_segment_4_1` resumes with counter 1 and round 5, keeping all files. -/
theorem C6_resume_reconciliation_amended_witness :
    _check_intermediate_generated_gep
        ⟨some ["s_segment_4_1"], some ["s_segment_4_1"], true, none⟩
      = .ok ⟨⟨some ["s_segment_4_1"], some ["s_segment_4_1"], true, none⟩, 1, 5, []⟩ :=
  (C6_resume_reconciliation_amended ["s_segment_4_1"] ["s_segment_4_1"] true none 4
    (by decide)).1 (by decide)

/-! ## Claim C10: `generate_gep` when the final `.h5ad` result already
exists (lines 527-538 and 720-722) -/

/-- The `BulkGEPGenerator` fields relevant to the frame-effect claim, plus
the on-disk artifacts and whether the bundled final result file
(`generated_bulk_gep_fp`) exists. -/
structure GenState where
  nSamples : Option ℕ
  totalCellNumber : Option ℕ
  filteringQuantileLower : Option ℚ
  filteringQuantileUpper : Option ℚ
  counter : ℕ
  nRound : ℕ
  refNeighborCounter : List (String × ℕ)
  artifacts : ResumeFS
  finalResultExists : Bool
deriving DecidableEq

/-- `generate_gep` at the state level.  The header of the method
(lines 529-531) assigns `self.n_samples`, `self.total_cell_number` and the
two filtering quantiles from the arguments **before** the existence check of
line 538; only when the final `.h5ad` does not exist does the body — resume
reconciliation, the generation loop and persistence, abstracted here as
`loopBody` — run; otherwise the method only prints the existing result path
and the object summary (lines 720-722), mutating nothing further. -/
def generate_gep (s : GenState) (nSamples totalCellNumber : ℕ) (qLower : Option ℚ)
    (qUpper : ℚ) (loopBody : GenState → GenState) : GenState :=
  let s1 : GenState :=
    { s with nSamples := some nSamples, totalCellNumber := some totalCellNumber,
             filteringQuantileLower := qLower, filteringQuantileUpper := some qUpper }
  if s.finalResultExists then s1 else loopBody s1

/-- **C10, counterexample.**  The claim says that with the final result file
present every field of the generator's state is left unchanged.  But the
assignments of lines 529-531 run before the existence check: calling with
`n_samples = 5` on a state whose `n_samples` is unset changes the field even
though no sampling, mixing, filtering or persistence happens (shown with the
loop body as the identity, which the taken branch never invokes). -/
theorem C10_header_fields_mutated_counterexample :
    (generate_gep ⟨none, none, none, some 0, 0, 0, [], ⟨none, none, false, none⟩, true⟩
        5 100 none (95/100) id).nSamples = some 5 ∧
      (⟨none, none, none, some 0, 0, 0, [], ⟨none, none, false, none⟩, true⟩
        : GenState).nSamples = none := by
  exact ⟨rfl, rfl⟩

/-- **C10, amended.**  If the final bundled `.h5ad` result exists when
`generate_gep` is called, no sampling, mixing, filtering or persistence
happens for **any** loop body: every on-disk artifact and every field of the
state is left unchanged **except** `n_samples`, `total_cell_number`,
`filtering_quantile_lower` and `filtering_quantile_upper`, which are
overwritten from the call's arguments before the existence check; the call
then only reports the existing result. -/
theorem C10_existing_result_frame_amended (s : GenState) (n t : ℕ) (ql : Option ℚ)
    (qu : ℚ) (loopBody : GenState → GenState) (h : s.finalResultExists = true) :
    (generate_gep s n t ql qu loopBody).artifacts = s.artifacts ∧
      (generate_gep s n t ql qu loopBody).counter = s.counter ∧
      (generate_gep s n t ql qu loopBody).nRound = s.nRound ∧
      (generate_gep s n t ql qu loopBody).refNeighborCounter = s.refNeighborCounter ∧
      (generate_gep s n t ql qu loopBody).finalResultExists = s.finalResultExists ∧
      (generate_gep s n t ql qu loopBody).nSamples = some n ∧
      (generate_gep s n t ql qu loopBody).totalCellNumber = some t ∧
      (generate_gep s n t ql qu loopBody).filteringQuantileLower = ql ∧
      (generate_gep s n t ql qu loopBody).filteringQuantileUpper = some qu := by
  unfold generate_gep
  rw [if_pos h]
  exact ⟨rfl, rfl, rfl, rfl, rfl, rfl, rfl, rfl, rfl⟩

/-- **C10, witness**: the amended frame property at a concrete state with the
result file present. -/
theorem C10_existing_result_frame_amended_witness :
    (generate_gep ⟨none, none, none, some 0, 7, 3, [("TCGA-1", 1)],
        ⟨some ["s_segment_0_1"], some ["s_segment_0_1"], true, none⟩, true⟩
        5 100 none (95/100) id).counter = 7 :=
  (C10_existing_result_frame_amended
    ⟨none, none, none, some 0, 7, 3, [("TCGA-1", 1)],
      ⟨some ["s_segment_0_1"], some ["s_segment_0_1"], true, none⟩, true⟩
    5 100 none (95/100) id rfl).2.1

end DeSide
